import Mathlib

/-!
Shallow embedding of the VirtuPiano keyboard component
(src/virtu_piano/src/PianoKeyboard.js): the note registry, the
note-name-to-midi/frequency conversion, the per-note synthesizer voice
table, the keyboard/pointer input handlers and the black-key layout math.
Stateful React code is modelled as explicit state passing: each event
handler maps a state to a new state together with the list of callback
invocations it performs.
-/

/-- One entry of the `KEYBOARD_NOTE_MAP` table: note name, display label,
bound input key and color class. -/
structure KeyEntry where
  note : String
  label : String
  key : String
  type : String
deriving DecidableEq

/-- The static note registry from the source (12 semitones of octave 4). -/
def KEYBOARD_NOTE_MAP : List KeyEntry :=
  [⟨"C4", "C", "Q", "white"⟩,
   ⟨"C#4", "C#", "2", "black"⟩,
   ⟨"D4", "D", "W", "white"⟩,
   ⟨"D#4", "D#", "3", "black"⟩,
   ⟨"E4", "E", "E", "white"⟩,
   ⟨"F4", "F", "R", "white"⟩,
   ⟨"F#4", "F#", "5", "black"⟩,
   ⟨"G4", "G", "T", "white"⟩,
   ⟨"G#4", "G#", "6", "black"⟩,
   ⟨"A4", "A", "Y", "white"⟩,
   ⟨"A#4", "A#", "7", "black"⟩,
   ⟨"B4", "B", "U", "white"⟩]

/-- The internal 12-name pitch-class table (the `notes` array of the
source's `noteNameToMidi`): C, C#, D, D#, E, F, F#, G, G#, A, A#, B. -/
def noteNamesTable : List String :=
  ["C", "C#", "D", "D#"] ++ ["E", "F", "F#", "G"] ++ ["G#", "A", "A#", "B"]

/-- Character class `[A-G]` of the source regex. -/
def isNoteLetter (c : Char) : Bool :=
  'A' ≤ c && c ≤ 'G'

/-- The match of the source regex `^([A-G]#?)(\d)$` on the characters of a
note name: on success it yields the pitch-class group (letter with optional
sharp) and the numeric value of the single octave digit. -/
def parsePitch : List Char → Option (String × Nat)
  | [c, d] =>
    if isNoteLetter c && d.isDigit then some (String.mk [c], d.toNat - 48)
    else none
  | [c, h, d] =>
    if isNoteLetter c && h == '#' && d.isDigit then
      some (String.mk [c, h], d.toNat - 48)
    else none
  | _ => none

/-- JavaScript `Array.prototype.indexOf` on a list of strings: index of the
first occurrence, or `-1` when absent. -/
def jsIndexOf : List String → String → Int
  | [], _ => -1
  | x :: xs, s =>
    if x = s then 0
    else
      let r := jsIndexOf xs s
      if r = -1 then -1 else r + 1

/-- JavaScript `Array.prototype.findIndex`: index of the first element
satisfying the predicate, or `-1` when none does. -/
def jsFindIndex {α : Type} (p : α → Bool) : List α → Int
  | [] => -1
  | x :: xs =>
    if p x then 0
    else
      let r := jsFindIndex p xs
      if r = -1 then -1 else r + 1

/-- The source's `noteNameToMidi`: regex match with fallback 60, then
`12 * (octave + 1) + notes.indexOf(pitchClass)` (the `indexOf` result is
`-1` when the pitch-class group is absent from the table, e.g. `E#`). -/
def noteNameToMidi (note : String) : Int :=
  match parsePitch note.data with
  | none => 60
  | some (n, octave) => 12 * ((octave : Int) + 1) + jsIndexOf noteNamesTable n

/-- The source's `noteToFrequency`: `440 * 2 ^ ((midi - 69) / 12)`. -/
noncomputable def noteToFrequency (note : String) : ℝ :=
  440 * (2 : ℝ) ^ ((((noteNameToMidi note : Int) : ℝ) - 69) / 12)

/-- JavaScript `String.prototype.startsWith` on character lists: every
character of the first list must head the second. -/
def strBeginsWith : List Char → List Char → Bool
  | [], _ => true
  | _, [] => false
  | p :: ps, c :: cs => p == c && strBeginsWith ps cs

/-- JavaScript `String.prototype.slice(n)`: drop the first `n` characters. -/
def strSlice (s : String) (n : Nat) : String :=
  String.mk (s.data.drop n)

/-- JavaScript `String.prototype.toUpperCase` on one ASCII character. -/
def chUpper (c : Char) : Char :=
  if 'a' ≤ c && c ≤ 'z' then Char.ofNat (c.toNat - 32) else c

/-- JavaScript `String.prototype.toUpperCase` (ASCII range, as used by the
registry's single-character key bindings). -/
def strUpper (s : String) : String :=
  String.mk (s.data.map chUpper)

/-- The source's `codeToKeyChar`: strips the `Key`/`Digit` lead of a DOM
key code, and maps everything else to the empty string. -/
def codeToKeyChar (code : String) : String :=
  if strBeginsWith "Key".data code.data then strSlice code 3
  else if strBeginsWith "Digit".data code.data then strSlice code 5
  else ""

/-- The source's `getNoteIndexFromKey`: `-1` for the empty (falsy) key,
otherwise a case-insensitive `findIndex` over the registry's bound keys. -/
def getNoteIndexFromKey (key : String) : Int :=
  if key = "" then -1
  else jsFindIndex (fun item => strUpper item.key == strUpper key) KEYBOARD_NOTE_MAP

/-- The live-voice table of `useSynth`: the JavaScript object
`oscillators.current` is a finite map from note names to oscillator
instances, modelled as an association list in property-insertion order,
oscillator identity modelled by a fresh counter `nextOsc`. -/
structure Synth where
  oscillators : List (String × Nat)
  nextOsc : Nat
deriving DecidableEq

/-- Property lookup `oscillators.current[note]` on the voice table. -/
def lookupOsc : List (String × Nat) → String → Option Nat
  | [], _ => none
  | p :: rest, note => if p.1 = note then some p.2 else lookupOsc rest note

/-- Property deletion `delete oscillators.current[note]`. -/
def removeOsc (t : List (String × Nat)) (note : String) : List (String × Nat) :=
  t.filter (fun p => p.1 != note)

/-- The source's `play(note)`: if a voice already exists for the note,
return immediately; otherwise create a fresh oscillator and record it. -/
def Synth.play (s : Synth) (note : String) : Synth :=
  match lookupOsc s.oscillators note with
  | some _ => s
  | none =>
    { oscillators := s.oscillators ++ [(note, s.nextOsc)],
      nextOsc := s.nextOsc + 1 }

/-- The source's `stop(note)`: if a voice exists for the note, stop it and
delete it from the table; otherwise do nothing. -/
def Synth.stop (s : Synth) (note : String) : Synth :=
  match lookupOsc s.oscillators note with
  | some _ => { s with oscillators := removeOsc s.oscillators note }
  | none => s

/-- The source's `osc.onended` cleanup: delete the table entry only when it
still holds this very oscillator. -/
def Synth.ended (s : Synth) (note : String) (osc : Nat) : Synth :=
  match lookupOsc s.oscillators note with
  | some o =>
    if o = osc then { s with oscillators := removeOsc s.oscillators note }
    else s
  | none => s

/-- The `handleGlobalPointerUp` sweep over the registry:
`KEYBOARD_NOTE_MAP.forEach(key => synth.stop(key.note))`. -/
def stopAll (syn : Synth) : Synth :=
  KEYBOARD_NOTE_MAP.foldl (fun acc k => acc.stop k.note) syn

/-- One recorded callback invocation of the component (`onNoteDown` or
`onNoteUp`, with the note name and registry index it was passed). -/
inductive CB where
  | down (note : String) (idx : Nat)
  | up (note : String) (idx : Nat)
deriving DecidableEq

/-- The component state: the `activeKeys` React set (ActiveNoteSet, holding
registry indices) together with the synthesizer's voice table. -/
structure PianoState where
  activeKeys : Finset Nat
  synth : Synth
deriving DecidableEq

/-- Registry entry at an index, as the source's `KEYBOARD_NOTE_MAP[idx]`
(every use in the source is at a valid index). -/
def noteMapEntry (i : Nat) : KeyEntry :=
  KEYBOARD_NOTE_MAP.getD i ⟨"", "", "", ""⟩

/-- The component's startup state: empty active set, empty voice table. -/
def initialState : PianoState :=
  ⟨∅, ⟨[], 0⟩⟩

/-- The source's `handleKeyDown`: resolve the DOM code, and only when it is
bound and the index is not already active, add the index, start the voice
and fire `onNoteDown`. -/
def handleKeyDown (s : PianoState) (code : String) : PianoState × List CB :=
  let idx := getNoteIndexFromKey (codeToKeyChar code)
  if idx ≠ -1 ∧ idx.toNat ∉ s.activeKeys then
    (⟨insert idx.toNat s.activeKeys, s.synth.play (noteMapEntry idx.toNat).note⟩,
     [CB.down (noteMapEntry idx.toNat).note idx.toNat])
  else (s, [])

/-- The source's `handleKeyUp`: whenever the DOM code is bound, remove the
index, stop the voice and fire `onNoteUp` (no already-released guard). -/
def handleKeyUp (s : PianoState) (code : String) : PianoState × List CB :=
  let idx := getNoteIndexFromKey (codeToKeyChar code)
  if idx ≠ -1 then
    (⟨s.activeKeys.erase idx.toNat, s.synth.stop (noteMapEntry idx.toNat).note⟩,
     [CB.up (noteMapEntry idx.toNat).note idx.toNat])
  else (s, [])

/-- The source's `handlePointerDown`: unconditionally add the index, call
`play` and fire `onNoteDown` (no already-pressed guard). -/
def handlePointerDown (s : PianoState) (idx : Nat) : PianoState × List CB :=
  (⟨insert idx s.activeKeys, s.synth.play (noteMapEntry idx).note⟩,
   [CB.down (noteMapEntry idx).note idx])

/-- The source's `handlePointerUp` (also wired to `onMouseLeave` and
`onTouchEnd`): remove the index, stop the voice and fire `onNoteUp`. -/
def handlePointerUp (s : PianoState) (idx : Nat) : PianoState × List CB :=
  (⟨s.activeKeys.erase idx, s.synth.stop (noteMapEntry idx).note⟩,
   [CB.up (noteMapEntry idx).note idx])

/-- The source's `handleGlobalPointerUp`: clear ActiveNoteSet and sweep
`stop` over every registry note; it fires no callback. -/
def handleGlobalPointerUp (s : PianoState) : PianoState × List CB :=
  (⟨∅, stopAll s.synth⟩, [])

/-- The `onended` completion event of a voice, delivered to the component. -/
def handleOscEnded (s : PianoState) (note : String) (osc : Nat) : PianoState :=
  ⟨s.activeKeys, s.synth.ended note osc⟩

/-- States of the component reachable from startup under the events the
browser can deliver: key down/up with any DOM code, pointer down/up (and
mouse-leave/touch-end, which share `handlePointerUp`) on rendered keys
(valid registry indices), the global pointer-up sweep, and voice
completion. -/
inductive Reachable : PianoState → Prop where
  | init : Reachable initialState
  | keyDown (s : PianoState) (code : String) :
      Reachable s → Reachable (handleKeyDown s code).1
  | keyUp (s : PianoState) (code : String) :
      Reachable s → Reachable (handleKeyUp s code).1
  | pointerDown (s : PianoState) (idx : Nat)
      (h : idx < KEYBOARD_NOTE_MAP.length) :
      Reachable s → Reachable (handlePointerDown s idx).1
  | pointerUp (s : PianoState) (idx : Nat)
      (h : idx < KEYBOARD_NOTE_MAP.length) :
      Reachable s → Reachable (handlePointerUp s idx).1
  | globalUp (s : PianoState) :
      Reachable s → Reachable (handleGlobalPointerUp s).1
  | oscEnded (s : PianoState) (note : String) (osc : Nat) :
      Reachable s → Reachable (handleOscEnded s note osc)

/-- The note names of the registry, in table order. -/
def registryNotes : List String :=
  KEYBOARD_NOTE_MAP.map (fun k => k.note)

/-- Number of voice-table entries recorded for a note. -/
def countOsc (t : List (String × Nat)) (note : String) : Nat :=
  t.countP (fun p => p.1 == note)

/-- The white-key sublist of the registry, as filtered by the component. -/
def whiteKeys : List KeyEntry :=
  KEYBOARD_NOTE_MAP.filter (fun k => k.type == "white")

/-- The source's `blackKeyToWhiteLeftIdx` dictionary: for each black note,
the index (among the white keys) of the white key to its left; the pairs
E–F and B–C deliberately have no entry. -/
def blackKeyToWhiteLeftIdx (note : String) : Option Nat :=
  if note = "C#4" then some 0
  else if note = "D#4" then some 1
  else if note = "F#4" then some 3
  else if note = "G#4" then some 4
  else if note = "A#4" then some 5
  else none

/-- The white-lane width `100 / whiteKeys.length` in percent. -/
def keyWidthPercent : ℚ :=
  100 / (whiteKeys.length : ℚ)

/-- The source's `getBlackKeyOffset`:
`(leftWhiteIdx + 1) * keyWidthPercent - keyWidthPercent / 2`. -/
def getBlackKeyOffset (note : String) : Option ℚ :=
  match blackKeyToWhiteLeftIdx note with
  | none => none
  | some leftWhiteIdx =>
    some (((leftWhiteIdx : ℚ) + 1) * keyWidthPercent - keyWidthPercent / 2)

/-- Rendered horizontal center of a black key of width `bw`: the style
sets `left` to the offset minus `bw / 2`, so the key's center sits at the
left edge plus `bw / 2`. -/
def blackKeyCenter (note : String) (bw : ℚ) : Option ℚ :=
  (getBlackKeyOffset note).map (fun off => (off - bw / 2) + bw / 2)

/-- One row of the second variant's `blackKeyPositions` table. -/
structure BlackKeyPos where
  note : String
  between : Nat × Nat
  percent : ℚ
deriving DecidableEq

/-- The second variant's `blackKeyPositions` table, with the literal
percent arithmetic of the source. -/
def blackKeyPositions : List BlackKeyPos :=
  [⟨"C#4", (0, 1), ((1 : ℚ) / 7) * 100 - 100 / 14⟩,
   ⟨"D#4", (1, 2), ((2 : ℚ) / 7) * 100 - 100 / 14⟩,
   ⟨"F#4", (3, 4), ((4 : ℚ) / 7) * 100 - 100 / 14⟩,
   ⟨"G#4", (4, 5), ((5 : ℚ) / 7) * 100 - 100 / 14⟩,
   ⟨"A#4", (5, 6), ((6 : ℚ) / 7) * 100 - 100 / 14⟩]

/-- Modelled from the spec: the horizontal position centered exactly
between white lanes `leftIdx` and `leftIdx + 1`, i.e. their shared
boundary, which is also the midpoint of the two-lane span. -/
def centerBetweenLanes (leftIdx : Nat) : ℚ :=
  ((leftIdx : ℚ) + 1) * keyWidthPercent

/-- A note has no table entry exactly when it is absent from the keys of
the voice table. -/
lemma lookupOsc_eq_none_iff (t : List (String × Nat)) (note : String) :
    lookupOsc t note = none ↔ note ∉ t.map Prod.fst := by
  induction t with
  | nil => simp [lookupOsc]
  | cons p rest ih =>
    by_cases h : p.1 = note
    · simp [lookupOsc, h]
    · have hstep : lookupOsc (p :: rest) note = lookupOsc rest note := by
        simp [lookupOsc, h]
      rw [hstep, ih]
      simp only [List.map_cons, List.mem_cons, not_or]
      constructor
      · intro hn
        exact ⟨fun he => h he.symm, hn⟩
      · intro hn
        exact hn.2

/-- A note with no table entry has zero recorded voices. -/
lemma countOsc_eq_zero (t : List (String × Nat)) (note : String)
    (h : lookupOsc t note = none) : countOsc t note = 0 := by
  rw [lookupOsc_eq_none_iff] at h
  refine List.countP_eq_zero.mpr ?_
  intro p hp hbeq
  exact h (List.mem_map.mpr ⟨p, hp, eq_of_beq hbeq⟩)

/-- Deleting an absent key leaves the table unchanged. -/
lemma removeOsc_eq_self (t : List (String × Nat)) (note : String)
    (h : lookupOsc t note = none) : removeOsc t note = t := by
  rw [lookupOsc_eq_none_iff] at h
  refine List.filter_eq_self.mpr ?_
  intro p hp
  simp only [bne_iff_ne, ne_eq]
  exact fun he => h (List.mem_map.mpr ⟨p, hp, he⟩)

/-- The voice table of `stop(note)` is always the table with the note's
key deleted (deleting an absent key is a no-op). -/
lemma Synth.stop_oscillators (syn : Synth) (note : String) :
    (syn.stop note).oscillators = removeOsc syn.oscillators note := by
  unfold Synth.stop
  cases h : lookupOsc syn.oscillators note with
  | none => simp [removeOsc_eq_self _ _ h]
  | some o => rfl

/-- The fresh-oscillator counter is untouched by `stop`. -/
lemma Synth.stop_nextOsc (syn : Synth) (note : String) :
    (syn.stop note).nextOsc = syn.nextOsc := by
  unfold Synth.stop
  cases h : lookupOsc syn.oscillators note <;> rfl

/-- Stopping a note with no live voice is a complete no-op. -/
lemma Synth.stop_of_lookup_none (syn : Synth) (note : String)
    (h : lookupOsc syn.oscillators note = none) : syn.stop note = syn := by
  unfold Synth.stop
  rw [h]

/-- A `play` on a note that already has a live voice returns the state
unchanged: no new oscillator, no restart. -/
lemma Synth.play_of_lookup_some (syn : Synth) (note : String) (o : Nat)
    (h : lookupOsc syn.oscillators note = some o) : syn.play note = syn := by
  unfold Synth.play
  rw [h]

/-- Folding `stop` over a list of registry entries filters out of the
table every key among those entries' notes, and nothing else. -/
lemma foldl_stop_eq (l : List KeyEntry) (syn : Synth) :
    l.foldl (fun acc k => acc.stop k.note) syn =
      ⟨syn.oscillators.filter
        (fun p => !((l.map (fun k => k.note)).contains p.1)), syn.nextOsc⟩ := by
  induction l generalizing syn with
  | nil =>
    cases syn
    simp
  | cons k rest ih =>
    rw [List.foldl_cons, ih, Synth.stop_oscillators, Synth.stop_nextOsc]
    unfold removeOsc
    rw [List.filter_filter]
    congr 1
    refine List.filter_congr ?_
    intro p _
    simp only [List.map_cons, List.contains_cons, Bool.not_or]
    exact Bool.and_comm _ _

/-- Bookkeeping invariant of the voice table: its keys are pairwise
distinct (it is a JavaScript object) and every key is a registry note. -/
def SynthInv (syn : Synth) : Prop :=
  (syn.oscillators.map Prod.fst).Nodup ∧
    ∀ p ∈ syn.oscillators, p.1 ∈ registryNotes

/-- A non-(-1) `findIndex` result is a valid index of the list. -/
lemma jsFindIndex_lt {α : Type} (p : α → Bool) (l : List α)
    (h : jsFindIndex p l ≠ -1) :
    0 ≤ jsFindIndex p l ∧ (jsFindIndex p l).toNat < l.length := by
  induction l with
  | nil => simp [jsFindIndex] at h
  | cons x xs ih =>
    by_cases hp : p x
    · simp [jsFindIndex, hp]
    · by_cases hr : jsFindIndex p xs = -1
      · rw [show jsFindIndex p (x :: xs) = -1 by simp [jsFindIndex, hp, hr]] at h
        exact absurd rfl h
      · rw [show jsFindIndex p (x :: xs) = jsFindIndex p xs + 1 by
          simp [jsFindIndex, hp, hr]]
        have := ih hr
        constructor
        · omega
        · simp only [List.length_cons]
          omega

/-- A non-(-1) key lookup yields a valid registry index. -/
lemma getNoteIndexFromKey_lt (key : String)
    (h : getNoteIndexFromKey key ≠ -1) :
    (getNoteIndexFromKey key).toNat < KEYBOARD_NOTE_MAP.length := by
  unfold getNoteIndexFromKey at h ⊢
  by_cases hk : key = ""
  · simp [hk] at h
  · rw [if_neg hk] at h ⊢
    exact (jsFindIndex_lt _ _ h).2

/-- Every valid registry index yields a registry note. -/
lemma noteMapEntry_note_mem :
    ∀ i : Nat, i < 12 → (noteMapEntry i).note ∈ registryNotes := by
  decide

/-- The registry has 12 entries. -/
lemma keyboard_note_map_length : KEYBOARD_NOTE_MAP.length = 12 := rfl

/-- Playing a registry note preserves the voice-table invariant. -/
lemma synthInv_play (syn : Synth) (note : String) (h : SynthInv syn)
    (hm : note ∈ registryNotes) : SynthInv (syn.play note) := by
  unfold Synth.play
  cases hl : lookupOsc syn.oscillators note with
  | some o => exact h
  | none =>
    have hnotin := (lookupOsc_eq_none_iff _ _).mp hl
    constructor
    · simp only [List.map_append, List.map_cons, List.map_nil]
      rw [List.nodup_append]
      exact ⟨h.1, List.nodup_singleton note,
        by simpa [List.disjoint_singleton] using hnotin⟩
    · intro p hp
      rcases List.mem_append.mp hp with hp1 | hp2
      · exact h.2 p hp1
      · rw [List.mem_singleton.mp hp2]
        exact hm

/-- Stopping any note preserves the voice-table invariant. -/
lemma synthInv_stop (syn : Synth) (note : String) (h : SynthInv syn) :
    SynthInv (syn.stop note) := by
  have ho := Synth.stop_oscillators syn note
  constructor
  · rw [ho]
    exact h.1.sublist ((List.filter_sublist _).map Prod.fst)
  · intro p hp
    rw [ho] at hp
    exact h.2 p (List.mem_of_mem_filter hp)

/-- A voice-completion cleanup preserves the voice-table invariant. -/
lemma synthInv_ended (syn : Synth) (note : String) (osc : Nat)
    (h : SynthInv syn) : SynthInv (syn.ended note osc) := by
  unfold Synth.ended
  split
  · split
    · constructor
      · exact h.1.sublist ((List.filter_sublist _).map Prod.fst)
      · intro p hp
        exact h.2 p (List.mem_of_mem_filter hp)
    · exact h
  · exact h

/-- The global release-all sweep preserves the voice-table invariant. -/
lemma synthInv_stopAll (syn : Synth) (h : SynthInv syn) :
    SynthInv (stopAll syn) := by
  unfold stopAll
  rw [foldl_stop_eq]
  constructor
  · exact h.1.sublist ((List.filter_sublist _).map Prod.fst)
  · intro p hp
    exact h.2 p (List.mem_of_mem_filter hp)

/-- Every reachable component state satisfies the voice-table invariant. -/
lemma reachable_synthInv (s : PianoState) (h : Reachable s) :
    SynthInv s.synth := by
  induction h with
  | init =>
    exact ⟨List.nodup_nil, by intro p hp; simp [initialState] at hp⟩
  | keyDown s code hs ih =>
    simp only [handleKeyDown]
    split
    · next hcond =>
      refine synthInv_play _ _ ih ?_
      refine noteMapEntry_note_mem _ ?_
      have hlt := getNoteIndexFromKey_lt _ hcond.1
      rw [keyboard_note_map_length] at hlt
      exact hlt
    · exact ih
  | keyUp s code hs ih =>
    simp only [handleKeyUp]
    split
    · exact synthInv_stop _ _ ih
    · exact ih
  | pointerDown s idx hlt hs ih =>
    simp only [handlePointerDown]
    refine synthInv_play _ _ ih (noteMapEntry_note_mem _ ?_)
    rw [keyboard_note_map_length] at hlt
    exact hlt
  | pointerUp s idx hlt hs ih =>
    exact synthInv_stop _ _ ih
  | globalUp s hs ih =>
    simp only [handleGlobalPointerUp]
    exact synthInv_stopAll s.synth ih
  | oscEnded s note osc hs ih =>
    simp only [handleOscEnded]
    exact synthInv_ended s.synth note osc ih

/-- C3: in table order the 12 registry entries have pairwise distinct
input keys, their midi numbers ascend by exactly one semitone from
C4 = 60 to B4 = 71, `noteToFrequency` of each entry equals
`440 * 2 ^ ((midi - 69) / 12)` with `midi = 60 + i`, and the reference
pitch satisfies `noteToFrequency "A4" = 440` exactly. -/
theorem c3_note_registry_frequencies :
    (KEYBOARD_NOTE_MAP.map (fun k => k.key)).Nodup
    ∧ KEYBOARD_NOTE_MAP.length = 12
    ∧ (∀ i : Fin KEYBOARD_NOTE_MAP.length,
        noteNameToMidi (KEYBOARD_NOTE_MAP.get i).note = 60 + (i : Nat))
    ∧ noteToFrequency "A4" = 440
    ∧ (∀ i : Fin KEYBOARD_NOTE_MAP.length,
        noteToFrequency (KEYBOARD_NOTE_MAP.get i).note
          = 440 * (2 : ℝ) ^ ((((60 + (i : Nat) : Int) : ℝ) - 69) / 12)) := by
  have hmidi : ∀ i : Fin KEYBOARD_NOTE_MAP.length,
      noteNameToMidi (KEYBOARD_NOTE_MAP.get i).note = 60 + (i : Nat) := by
    decide
  refine ⟨by decide, rfl, hmidi, ?_, ?_⟩
  · have h69 : noteNameToMidi "A4" = 69 := by decide
    rw [noteToFrequency, h69]
    have hz : (((69 : Int) : ℝ) - 69) / 12 = 0 := by norm_num
    rw [hz, Real.rpow_zero, mul_one]
  · intro i
    rw [noteToFrequency, hmidi i]

/-- C7: any input whose characters do not match the pitch-name regex
`^([A-G]#?)(\d)$` makes `noteNameToMidi` fall back to MIDI 60 (C4), so
`noteToFrequency` yields the C4 frequency instead of failing. -/
theorem c7_unparseable_note_falls_back_to_c4 (note : String)
    (h : parsePitch note.data = none) :
    noteNameToMidi note = 60
    ∧ noteToFrequency note = 440 * (2 : ℝ) ^ ((((60 : Int) : ℝ) - 69) / 12) := by
  have h1 : noteNameToMidi note = 60 := by
    rw [noteNameToMidi, h]
  exact ⟨h1, by rw [noteToFrequency, h1]⟩

/-- Witness for C7 at the unparseable note name `H4`. -/
theorem c7_unparseable_note_falls_back_to_c4_witness :
    noteNameToMidi "H4" = 60 :=
  (c7_unparseable_note_falls_back_to_c4 "H4" (by decide)).1

/-- C10: a name of the form `E#`/`B#` plus a digit matches the parsing
regex, but the pitch class is absent from the internal 12-name table, so
`indexOf` yields `-1` and `noteNameToMidi` returns `12 * (octave + 1) - 1`
(59 for octave digit 4) instead of the documented C4 fallback 60, and
`noteToFrequency` uses that midi value, one semitone below the octave's C. -/
theorem c10_sharp_e_b_parser_edge (c : Char) (hc : c.isDigit = true) :
    (parsePitch (String.mk ['E', '#', c]).data).isSome = true
    ∧ (parsePitch (String.mk ['B', '#', c]).data).isSome = true
    ∧ jsIndexOf noteNamesTable "E#" = -1
    ∧ jsIndexOf noteNamesTable "B#" = -1
    ∧ noteNameToMidi (String.mk ['E', '#', c])
        = 12 * (((c.toNat - 48 : Nat) : Int) + 1) - 1
    ∧ noteNameToMidi (String.mk ['B', '#', c])
        = 12 * (((c.toNat - 48 : Nat) : Int) + 1) - 1
    ∧ noteNameToMidi (String.mk ['E', '#', c]) ≠ 60
    ∧ noteToFrequency (String.mk ['E', '#', c])
        = 440 * (2 : ℝ) ^
            ((((12 * (((c.toNat - 48 : Nat) : Int) + 1) - 1 : Int) : ℝ) - 69) / 12) := by
  have hE : parsePitch (String.mk ['E', '#', c]).data
      = some (String.mk ['E', '#'], c.toNat - 48) := by
    simp [parsePitch, hc, isNoteLetter]
  have hB : parsePitch (String.mk ['B', '#', c]).data
      = some (String.mk ['B', '#'], c.toNat - 48) := by
    simp [parsePitch, hc, isNoteLetter]
  have hiE : jsIndexOf noteNamesTable (String.mk ['E', '#']) = -1 := by decide
  have hiB : jsIndexOf noteNamesTable (String.mk ['B', '#']) = -1 := by decide
  have hmE : noteNameToMidi (String.mk ['E', '#', c])
      = 12 * (((c.toNat - 48 : Nat) : Int) + 1) - 1 := by
    simp only [noteNameToMidi, hE, hiE]
    ring
  have hmB : noteNameToMidi (String.mk ['B', '#', c])
      = 12 * (((c.toNat - 48 : Nat) : Int) + 1) - 1 := by
    simp only [noteNameToMidi, hB, hiB]
    ring
  refine ⟨by rw [hE]; rfl, by rw [hB]; rfl, hiE, hiB, hmE, hmB, ?_, ?_⟩
  · rw [hmE]
    omega
  · rw [noteToFrequency, hmE]

/-- Witness for C10 at the concrete note name `E#4`. -/
theorem c10_sharp_e_b_parser_edge_witness :
    noteNameToMidi (String.mk ['E', '#', '4'])
      = 12 * ((('4'.toNat - 48 : Nat) : Int) + 1) - 1 :=
  (c10_sharp_e_b_parser_edge '4' (by decide)).2.2.2.2.1

/-- Playing a note with no live voice records exactly one voice for it. -/
lemma countOsc_play_of_none (syn : Synth) (note : String)
    (h : lookupOsc syn.oscillators note = none) :
    countOsc (syn.play note).oscillators note = 1 := by
  have h0 : countOsc syn.oscillators note = 0 := countOsc_eq_zero _ _ h
  simp only [Synth.play, h, countOsc] at h0 ⊢
  simp [List.countP_append, h0]

/-- C1: with the note's bound key resolving to a valid registry index that
is not yet active and has no live voice, the first key-down adds exactly
that index, fires exactly one `onNoteDown` and records exactly one voice,
and a second key-down for the same key before any key-up is a complete
no-op: same state, no callback, no further voice. -/
theorem c1_key_repeat_is_idempotent (s : PianoState) (code : String) (j : Int)
    (hj : getNoteIndexFromKey (codeToKeyChar code) = j)
    (hne : j ≠ -1)
    (hheld : j.toNat ∉ s.activeKeys)
    (hnov : lookupOsc s.synth.oscillators (noteMapEntry j.toNat).note = none) :
    handleKeyDown (handleKeyDown s code).1 code = ((handleKeyDown s code).1, [])
    ∧ (handleKeyDown s code).1.activeKeys = insert j.toNat s.activeKeys
    ∧ (handleKeyDown s code).2 = [CB.down (noteMapEntry j.toNat).note j.toNat]
    ∧ countOsc (handleKeyDown s code).1.synth.oscillators
        (noteMapEntry j.toNat).note = 1 := by
  have h1 : handleKeyDown s code =
      (⟨insert j.toNat s.activeKeys,
        s.synth.play (noteMapEntry j.toNat).note⟩,
       [CB.down (noteMapEntry j.toNat).note j.toNat]) := by
    simp only [handleKeyDown, hj]
    rw [if_pos ⟨hne, hheld⟩]
  refine ⟨?_, by rw [h1], by rw [h1], ?_⟩
  · rw [h1]
    simp only [handleKeyDown, hj]
    rw [if_neg]
    intro hcond
    exact hcond.2 (Finset.mem_insert_self _ _)
  · rw [h1]
    exact countOsc_play_of_none s.synth (noteMapEntry j.toNat).note hnov

/-- Witness for C1: pressing `Q` (note C4) twice from the startup state. -/
theorem c1_key_repeat_is_idempotent_witness :
    handleKeyDown (handleKeyDown initialState "KeyQ").1 "KeyQ"
      = ((handleKeyDown initialState "KeyQ").1, []) :=
  (c1_key_repeat_is_idempotent initialState "KeyQ" 0 (by decide) (by decide)
    (by decide) (by decide)).1

/-- A table with pairwise-distinct keys holds at most one entry per note. -/
lemma countOsc_le_one_of_nodup (t : List (String × Nat))
    (h : (t.map Prod.fst).Nodup) (note : String) :
    countOsc t note ≤ 1 := by
  induction t with
  | nil => simp [countOsc]
  | cons p rest ih =>
    simp only [List.map_cons, List.nodup_cons] at h
    by_cases he : p.1 = note
    · have h0 : countOsc rest note = 0 := by
        apply countOsc_eq_zero
        rw [lookupOsc_eq_none_iff, ← he]
        exact h.1
      simp only [countOsc, List.countP_cons] at h0 ⊢
      simp [he, h0]
    · have hr := ih h.2
      simp only [countOsc, List.countP_cons] at hr ⊢
      simp [he, hr]

/-- List membership implies a `true` result of boolean `contains`. -/
lemma contains_of_mem {l : List String} {a : String} (h : a ∈ l) :
    l.contains a = true := by
  induction l with
  | nil => cases h
  | cons x xs ih =>
    rcases List.mem_cons.mp h with h1 | h2
    · simp only [List.contains_cons, Bool.or_eq_true]
      exact Or.inl (by simp [h1])
    · simp only [List.contains_cons, Bool.or_eq_true]
      exact Or.inr (ih h2)

/-- C2: in every reachable state the live-voice table holds at most one
entry per note, and `play` on a note that already has a live voice returns
the synthesizer completely unchanged: no new voice, no restart. -/
theorem c2_at_most_one_live_voice_per_note (s : PianoState)
    (h : Reachable s) :
    (∀ note, countOsc s.synth.oscillators note ≤ 1)
    ∧ ∀ note o, lookupOsc s.synth.oscillators note = some o →
        s.synth.play note = s.synth := by
  have hinv := reachable_synthInv s h
  exact ⟨fun note => countOsc_le_one_of_nodup _ hinv.1 note,
    fun note o hl => Synth.play_of_lookup_some s.synth note o hl⟩

/-- Witness for C2 at the reachable startup state. -/
theorem c2_at_most_one_live_voice_per_note_witness :
    countOsc initialState.synth.oscillators "C4" ≤ 1 :=
  (c2_at_most_one_live_voice_per_note initialState Reachable.init).1 "C4"

/-- C4: from any reachable state, the global release-all event empties
ActiveNoteSet, leaves no live voice at all (it stops every one), fires no
callback, and each sweep `stop` on a note with no live voice is a silent
no-op that changes nothing. -/
theorem c4_release_all_clears_and_tolerates_inactive (s : PianoState)
    (h : Reachable s) :
    (handleGlobalPointerUp s).1.activeKeys = ∅
    ∧ (handleGlobalPointerUp s).1.synth.oscillators = []
    ∧ (handleGlobalPointerUp s).2 = []
    ∧ ∀ note, lookupOsc s.synth.oscillators note = none →
        s.synth.stop note = s.synth := by
  have hinv := reachable_synthInv s h
  refine ⟨rfl, ?_, rfl, fun note hn => Synth.stop_of_lookup_none s.synth note hn⟩
  simp only [handleGlobalPointerUp]
  show (stopAll s.synth).oscillators = []
  unfold stopAll
  rw [foldl_stop_eq]
  refine List.filter_eq_nil_iff.mpr ?_
  intro p hp
  have hc : (KEYBOARD_NOTE_MAP.map (fun k => k.note)).contains p.1 = true :=
    contains_of_mem (hinv.2 p hp)
  simp only [hc]
  decide

/-- Witness for C4 at the reachable startup state. -/
theorem c4_release_all_clears_and_tolerates_inactive_witness :
    (handleGlobalPointerUp initialState).1.activeKeys = ∅ :=
  (c4_release_all_clears_and_tolerates_inactive initialState Reachable.init).1

/-- C5 counterexample: from the startup state (where note C4 / index 0 is
not active) the key-up for its bound key `Q` still fires an `onNoteUp`
callback, refuting the claim that no callback is invoked. -/
theorem c5_duplicate_note_off_counterexample :
    (0 : Nat) ∉ initialState.activeKeys
    ∧ (handleKeyUp initialState "KeyQ").2 ≠ []
    ∧ (handleKeyUp initialState "KeyQ").2 = [CB.up "C4" 0] := by
  refine ⟨by decide, by decide, by decide⟩

/-- C5 as amended: a note-off (key-up, pointer release or pointer leave)
for a note that is not active and has no live voice changes no state —
ActiveNoteSet and the voice table are untouched — but it still invokes the
`onNoteUp` callback once. -/
theorem c5_duplicate_note_off_state_noop_but_callback (s : PianoState) :
    (∀ code j, getNoteIndexFromKey (codeToKeyChar code) = j → j ≠ -1 →
      j.toNat ∉ s.activeKeys →
      lookupOsc s.synth.oscillators (noteMapEntry j.toNat).note = none →
      handleKeyUp s code = (s, [CB.up (noteMapEntry j.toNat).note j.toNat]))
    ∧ (∀ idx, idx ∉ s.activeKeys →
      lookupOsc s.synth.oscillators (noteMapEntry idx).note = none →
      handlePointerUp s idx = (s, [CB.up (noteMapEntry idx).note idx])) := by
  constructor
  · intro code j hj hne hka hv
    simp only [handleKeyUp, hj]
    rw [if_pos hne]
    rw [Finset.erase_eq_of_not_mem hka, Synth.stop_of_lookup_none s.synth _ hv]
  · intro idx hka hv
    simp only [handlePointerUp]
    rw [Finset.erase_eq_of_not_mem hka, Synth.stop_of_lookup_none s.synth _ hv]

/-- Witness for the amended C5: key-up of `Q` from the startup state. -/
theorem c5_duplicate_note_off_state_noop_but_callback_witness :
    handleKeyUp initialState "KeyQ"
      = (initialState,
         [CB.up (noteMapEntry (0 : Int).toNat).note (0 : Int).toNat]) :=
  (c5_duplicate_note_off_state_noop_but_callback initialState).1 "KeyQ" 0
    (by decide) (by decide) (by decide) (by decide)

/-- C6 counterexample: with note C4 (index 0) already held, pointer
note-down then note-up on it leaves ActiveNoteSet empty, not equal to the
pre-press set, refuting the claim for states that already hold the note. -/
theorem c6_round_trip_counterexample :
    (handlePointerUp
        (handlePointerDown (⟨{0}, ⟨[], 0⟩⟩ : PianoState) 0).1 0).1.activeKeys
      ≠ (⟨{0}, ⟨[], 0⟩⟩ : PianoState).activeKeys := by
  decide

/-- C6 as amended: for every state whose ActiveNoteSet does not already
hold the pressed note, note-down followed by note-up on that note restores
ActiveNoteSet exactly (set equality, other held notes preserved), on both
the pointer path and the keyboard path. -/
theorem c6_round_trip_restores_active_set (s : PianoState) :
    (∀ idx, idx ∉ s.activeKeys →
      (handlePointerUp (handlePointerDown s idx).1 idx).1.activeKeys
        = s.activeKeys)
    ∧ (∀ code j, getNoteIndexFromKey (codeToKeyChar code) = j → j ≠ -1 →
      j.toNat ∉ s.activeKeys →
      (handleKeyUp (handleKeyDown s code).1 code).1.activeKeys
        = s.activeKeys) := by
  constructor
  · intro idx hidx
    show ((insert idx s.activeKeys).erase idx) = s.activeKeys
    exact Finset.erase_insert hidx
  · intro code j hj hne hka
    have h1 : handleKeyDown s code =
        (⟨insert j.toNat s.activeKeys,
          s.synth.play (noteMapEntry j.toNat).note⟩,
         [CB.down (noteMapEntry j.toNat).note j.toNat]) := by
      simp only [handleKeyDown, hj]
      rw [if_pos ⟨hne, hka⟩]
    rw [h1]
    simp only [handleKeyUp, hj]
    rw [if_pos hne]
    show ((insert j.toNat s.activeKeys).erase j.toNat) = s.activeKeys
    exact Finset.erase_insert hka

/-- Witness for the amended C6: pointer round trip on index 0 from the
startup state. -/
theorem c6_round_trip_restores_active_set_witness :
    (handlePointerUp (handlePointerDown initialState 0).1 0).1.activeKeys
      = initialState.activeKeys :=
  (c6_round_trip_restores_active_set initialState).1 0 (by decide)

/-- C9: a pointer press on a key whose note is already active still fires
`onNoteDown` again and calls `play` (a voice-level no-op when the voice is
live), ActiveNoteSet gains no second entry, while the keyboard path in the
same situation is a complete no-op with no callback. -/
theorem c9_pointer_path_has_no_pressed_guard (s : PianoState) (idx : Nat)
    (h : idx ∈ s.activeKeys) :
    (handlePointerDown s idx).2 = [CB.down (noteMapEntry idx).note idx]
    ∧ (handlePointerDown s idx).1.activeKeys = s.activeKeys
    ∧ (∀ o, lookupOsc s.synth.oscillators (noteMapEntry idx).note = some o →
        (handlePointerDown s idx).1.synth = s.synth)
    ∧ (∀ code, getNoteIndexFromKey (codeToKeyChar code) ≠ -1 →
        (getNoteIndexFromKey (codeToKeyChar code)).toNat = idx →
        handleKeyDown s code = (s, [])) := by
  refine ⟨rfl, ?_, ?_, ?_⟩
  · show insert idx s.activeKeys = s.activeKeys
    exact Finset.insert_eq_self.mpr h
  · intro o ho
    show s.synth.play (noteMapEntry idx).note = s.synth
    exact Synth.play_of_lookup_some _ _ o ho
  · intro code hne hidx
    simp only [handleKeyDown]
    rw [if_neg]
    intro hcond
    rw [hidx] at hcond
    exact hcond.2 h

/-- Witness for C9: pointer press on the already-active index 0. -/
theorem c9_pointer_path_has_no_pressed_guard_witness :
    (handlePointerDown (⟨{0}, ⟨[], 0⟩⟩ : PianoState) 0).2
      = [CB.down (noteMapEntry 0).note 0] :=
  (c9_pointer_path_has_no_pressed_guard ⟨{0}, ⟨[], 0⟩⟩ 0 (by decide)).1

/-- C8: the white keys get equal-width lanes in pitch order and black keys
exist exactly between the pairs (C,D), (D,E), (F,G), (G,A), (A,B), but the
computed offset for a black key is `(leftIdx + 1) * laneWidth -
laneWidth / 2`, so its rendered center (offset minus then plus half the
black-key width) sits at the middle of the LEFT white lane — for `C#4` at
50/7 percent — and not at `centerBetweenLanes`, the boundary between the
two neighboring lanes (100/7 percent), contradicting the centering stated
by the source's own comments. -/
theorem c8_black_key_layout_divergence :
    (whiteKeys.map (fun k => k.note))
        = ["C4", "D4", "E4", "F4", "G4", "A4", "B4"]
    ∧ keyWidthPercent = 100 / 7
    ∧ getBlackKeyOffset "C#4" = some (50 / 7)
    ∧ (∀ bw : ℚ, blackKeyCenter "C#4" bw = some (50 / 7))
    ∧ centerBetweenLanes 0 = 100 / 7
    ∧ (50 / 7 : ℚ) ≠ centerBetweenLanes 0
    ∧ (blackKeyPositions.map (fun bp => getBlackKeyOffset bp.note))
        = blackKeyPositions.map (fun bp => some bp.percent)
    ∧ (blackKeyPositions.map (fun bp => bp.note))
        = ["C#4", "D#4", "F#4", "G#4", "A#4"]
    ∧ (blackKeyPositions.map (fun bp => bp.between))
        = [(0, 1), (1, 2), (3, 4), (4, 5), (5, 6)]
    ∧ (["C#4", "D#4", "F#4", "G#4", "A#4"].map blackKeyToWhiteLeftIdx)
        = [some 0, some 1, some 3, some 4, some 5] := by
  have h7 : whiteKeys.length = 7 := rfl
  have hkw : keyWidthPercent = 100 / 7 := by
    simp only [keyWidthPercent, h7]
    norm_num
  have hoff : getBlackKeyOffset "C#4" = some (50 / 7) := by
    simp only [getBlackKeyOffset,
      show blackKeyToWhiteLeftIdx "C#4" = some 0 from rfl, hkw]
    norm_num
  have hoffC : getBlackKeyOffset "C#4" = some ((1 / 7 : ℚ) * 100 - 100 / 14) := by
    rw [hoff]
    norm_num
  have hoffD : getBlackKeyOffset "D#4" = some ((2 / 7 : ℚ) * 100 - 100 / 14) := by
    simp only [getBlackKeyOffset,
      show blackKeyToWhiteLeftIdx "D#4" = some 1 from rfl, hkw]
    norm_num
  have hoffF : getBlackKeyOffset "F#4" = some ((4 / 7 : ℚ) * 100 - 100 / 14) := by
    simp only [getBlackKeyOffset,
      show blackKeyToWhiteLeftIdx "F#4" = some 3 from rfl, hkw]
    norm_num
  have hoffG : getBlackKeyOffset "G#4" = some ((5 / 7 : ℚ) * 100 - 100 / 14) := by
    simp only [getBlackKeyOffset,
      show blackKeyToWhiteLeftIdx "G#4" = some 4 from rfl, hkw]
    norm_num
  have hoffA : getBlackKeyOffset "A#4" = some ((6 / 7 : ℚ) * 100 - 100 / 14) := by
    simp only [getBlackKeyOffset,
      show blackKeyToWhiteLeftIdx "A#4" = some 5 from rfl, hkw]
    norm_num
  have hcbl : centerBetweenLanes 0 = 100 / 7 := by
    simp only [centerBetweenLanes, hkw]
    norm_num
  refine ⟨by decide, hkw, hoff, ?_, hcbl, by rw [hcbl]; norm_num, ?_,
    by decide, by decide, by decide⟩
  · intro bw
    simp only [blackKeyCenter, hoff, Option.map_some']
    exact congrArg some (by ring)
  · simp only [blackKeyPositions, List.map_cons, List.map_nil,
      hoffC, hoffD, hoffF, hoffG, hoffA]
